import Mathlib

/-!
Verification of the PDF form-filling core of `hkd-form-app`
(`src/lib/pdf-utils.ts`), as a shallow embedding in Lean 4.

Modelling conventions:
* Byte buffers (`Uint8Array`, binary strings) are `List Nat` with every
  element below 256.
* Data URLs are `List Char` (JavaScript strings are sequences of UTF-16
  code units; the URLs handled here are ASCII).
* The browser primitives `atob` and `btoa` are not repository code; they
  are modelled as standard base64 decode and encode.
* Fallible external steps of `fillPdfForm` (network fetch, `PDFDocument.load`,
  canvas context creation, `embedPng`, `embedJpg`, `drawImage`, `form.flatten`,
  `pdfDoc.save`) are driven by an explicit environment `ComposeEnv` of
  success flags, so the catch branches of the source become ordinary
  control flow on those flags.
* The tables `FORM_FIELDS`, `FIELD_COORDS`, `PHOTO_BOX` and
  `SIGNATURE_POSITIONS` come from `./form-fields`, a module imported by the
  source file; `fillPdfForm` is therefore parametrised over them.
-/

namespace HkdForm

/-- The standard base64 alphabet used by the platform `btoa` and `atob`. -/
def b64Alphabet : List Char :=
  "ABCDEFGHIJKLMNOPQRSTUVWXYZabcdefghijklmnopqrstuvwxyz0123456789+/".toList

/-- Character for a 6-bit group. -/
def b64Char (n : Nat) : Char := b64Alphabet.getD n 'A'

/-- Index of a character in a character list, leftmost occurrence. -/
def idxOf (c : Char) : List Char → Option Nat
  | [] => none
  | d :: rest => if d = c then some 0 else (idxOf c rest).map (· + 1)

/-- 6-bit value of a base64 character, `none` when the character is not
in the alphabet. -/
def b64Index (c : Char) : Option Nat := idxOf c b64Alphabet

/-- Modelled platform primitive `btoa` restricted to byte lists: standard
base64 encoding with `=` padding, processing three bytes into four
characters. -/
def base64Encode : List Nat → List Char
  | [] => []
  | [a] =>
      [b64Char (a / 4), b64Char (a % 4 * 16), '=', '=']
  | [a, b] =>
      [b64Char (a / 4), b64Char (a % 4 * 16 + b / 16), b64Char (b % 16 * 4), '=']
  | a :: b :: c :: rest =>
      b64Char (a / 4) :: b64Char (a % 4 * 16 + b / 16) ::
        b64Char (b % 16 * 4 + c / 64) :: b64Char (c % 64) :: base64Encode rest

/-- Modelled platform primitive `atob`: standard base64 decoding; `none`
models the `InvalidCharacterError` thrown on malformed input. -/
def base64Decode : List Char → Option (List Nat)
  | [] => some []
  | c0 :: c1 :: c2 :: c3 :: rest =>
      if c2 = '=' ∧ c3 = '=' ∧ rest = [] then
        match b64Index c0, b64Index c1 with
        | some n0, some n1 => some [n0 * 4 + n1 / 16]
        | _, _ => none
      else if c3 = '=' ∧ rest = [] then
        match b64Index c0, b64Index c1, b64Index c2 with
        | some n0, some n1, some n2 =>
            some [n0 * 4 + n1 / 16, n1 % 16 * 16 + n2 / 4]
        | _, _, _ => none
      else
        match b64Index c0, b64Index c1, b64Index c2, b64Index c3,
            base64Decode rest with
        | some n0, some n1, some n2, some n3, some bytes =>
            some ((n0 * 4 + n1 / 16) :: (n1 % 16 * 16 + n2 / 4) ::
              (n2 % 4 * 64 + n3) :: bytes)
        | _, _, _, _, _ => none
  | _ => none

/-- The `split(",")` of a JavaScript string, on character lists. -/
def splitOnChar (sep : Char) : List Char → List (List Char)
  | [] => [[]]
  | c :: rest =>
      if c = sep then [] :: splitOnChar sep rest
      else
        match splitOnChar sep rest with
        | [] => [[c]]
        | s :: ss => (c :: s) :: ss

/-- Embedding of `dataUrlToUint8Array`: take the part after the first comma
and base64-decode it into bytes (`bytes[i] = binary.charCodeAt(i)`).
`none` models the exception thrown by `atob` on malformed input or a URL
with no comma. -/
def dataUrlToUint8Array (dataUrl : List Char) : Option (List Nat) :=
  match (splitOnChar ',' dataUrl).get? 1 with
  | none => none
  | some b64 => base64Decode b64

/-- Substring test for character lists (JavaScript `String.includes`). -/
def leadsWith : List Char → List Char → Bool
  | [], _ => true
  | _ :: _, [] => false
  | p :: ps, c :: cs => p = c && leadsWith ps cs

/-- Whether `pat` occurs as a contiguous subsequence of `s`. -/
def hasSub (pat : List Char) : List Char → Bool
  | [] => leadsWith pat []
  | c :: cs => leadsWith pat (c :: cs) || hasSub pat cs

/-- The two embed paths of pdf-lib used by the source: `embedPng` and
`embedJpg`. -/
inductive EmbedKind where
  | png
  | jpg
deriving Repr, DecidableEq

/-- Embedding of `getImageType`: a data URL containing `image/png` selects
the PNG path, everything else the JPEG path. -/
def getImageType (dataUrl : List Char) : EmbedKind :=
  if hasSub "image/png".toList dataUrl then .png else .jpg

/-- The fixed upscale factor `const scale = 4` of `renderTextToImage`. -/
def renderScale : ℚ := 4

/-- The raster produced by `renderTextToImage`: the text drawn, the backing
canvas dimensions, the derived font size (the `fontSize` constant of the
source) and the pixel size passed to `ctx.font` on the scaled canvas. -/
structure RenderedRaster where
  text : String
  canvasW : ℚ
  canvasH : ℚ
  fontSize : ℚ
  ctxFontPx : ℚ
deriving Repr, DecidableEq

/-- Embedding of `renderTextToImage`. The flag `ctxOk` models whether
`canvas.getContext("2d")` succeeds; when it does not, the source returns
the empty string, modelled as `none`. -/
def renderTextToImage (ctxOk : Bool) (text : String) (fieldWidth fieldHeight : ℚ) :
    Option RenderedRaster :=
  let fontSize := fieldHeight * (85 / 100)
  let canvasWidth := fieldWidth * renderScale
  let canvasHeight := fieldHeight * renderScale
  if ctxOk then
    some ⟨text, canvasWidth, canvasHeight, fontSize, fontSize * renderScale⟩
  else
    none

/-- A page-space rectangle of the coordinate table (`FIELD_COORDS` entries
use `w`/`h`; `PHOTO_BOX` and `SIGNATURE_POSITIONS` use `width`/`height`,
identified here). -/
structure FieldRect where
  x : ℚ
  y : ℚ
  w : ℚ
  h : ℚ
deriving Repr, DecidableEq

/-- An entry of the `FORM_FIELDS` table: a logical field id and the key of
its widget in the PDF template. -/
structure FormFieldDef where
  id : String
  pdfFieldId : String
deriving Repr, DecidableEq

/-- Embedding of the `ImageData` interface: optional photo and signature
data URLs. -/
structure ImageData where
  photo : Option (List Char)
  signature : Option (List Char)

/-- Success flags for each fallible external step inside `fillPdfForm`.
`textEmbedOk` covers, per PDF field key, the `embedPng` and `drawImage`
calls of the per-field `try` block; `photoOk` and `sigOk` cover decoding,
embedding and drawing of the respective asset. -/
structure ComposeEnv where
  fetchOk : Bool
  loadOk : Bool
  ctxOk : Bool
  textEmbedOk : String → Bool
  flattenOk : Bool
  photoOk : Bool
  sigOk : Bool
  saveOk : Bool

/-- The failures that escape `fillPdfForm` to its caller. -/
inductive PdfError where
  | fetchFailed
  | loadFailed
  | saveFailed
deriving Repr, DecidableEq

/-- An image drawn on the first page: which embed path produced it and
where it was placed. -/
structure DrawnImage where
  kind : EmbedKind
  x : ℚ
  y : ℚ
  w : ℚ
  h : ℚ
deriving Repr, DecidableEq

/-- The observable result of a successful `fillPdfForm` call: the text
overlays drawn (keyed by PDF field key), whether `form.flatten()`
succeeded, and the drawn photo and signature. -/
structure ComposedDoc where
  textOverlays : List (String × DrawnImage)
  flattened : Bool
  photo : Option DrawnImage
  signature : Option DrawnImage
deriving Repr, DecidableEq

/-- Assignment `record[key] = value` on a JavaScript object modelled as an
insertion-ordered association list: overwrite in place when the key exists,
append otherwise. -/
def recordSet (r : List (String × String)) (k v : String) : List (String × String) :=
  if r.any (fun p => p.1 = k) then
    r.map (fun p => if p.1 = k then (k, v) else p)
  else r ++ [(k, v)]

/-- The `pdfFieldData` object of `fillPdfForm`: for each `FORM_FIELDS`
entry whose value is defined and non-empty, map its PDF field key to the
value. -/
def buildPdfFieldData (fields : List FormFieldDef) (formValues : String → Option String) :
    List (String × String) :=
  fields.foldl (fun acc f =>
    match formValues f.id with
    | some v => if v ≠ "" then recordSet acc f.pdfFieldId v else acc
    | none => acc) []

/-- One iteration of the drawing loop of `fillPdfForm` over an entry of
`pdfFieldData`: missing coordinates skip the field, an empty data URL from
the rasterizer skips the field, and a caught embed failure skips the
field; otherwise a PNG raster is drawn at the coordinates. -/
def drawTextOverlay (env : ComposeEnv) (fieldCoords : String → Option FieldRect)
    (entry : String × String) : Option (String × DrawnImage) :=
  match fieldCoords entry.1 with
  | none => none
  | some c =>
      match renderTextToImage env.ctxOk entry.2 c.w c.h with
      | none => none
      | some _ =>
          if env.textEmbedOk entry.1 then
            some (entry.1, ⟨.png, c.x, c.y, c.w, c.h⟩)
          else none

/-- The photo and signature steps of `fillPdfForm`: on success the asset is
drawn at the fixed box with the embed path chosen by `getImageType`; a
caught failure leaves the asset absent. -/
def embedAsset (ok : Bool) (box : FieldRect) (url : List Char) : Option DrawnImage :=
  if ok then some ⟨getImageType url, box.x, box.y, box.w, box.h⟩ else none

/-- Embedding of `fillPdfForm`, parametrised over the tables imported from
`./form-fields` (the `FORM_FIELDS` list, the `FIELD_COORDS` lookup, the
photo box and the student signature position). -/
def fillPdfForm (env : ComposeEnv) (formFields : List FormFieldDef)
    (fieldCoords : String → Option FieldRect) (photoBox sigBox : FieldRect)
    (formValues : String → Option String) (images : ImageData) :
    Except PdfError ComposedDoc :=
  if !env.fetchOk then .error .fetchFailed
  else if !env.loadOk then .error .loadFailed
  else
    let pdfFieldData := buildPdfFieldData formFields formValues
    let overlays := pdfFieldData.filterMap (drawTextOverlay env fieldCoords)
    let photo := images.photo.bind (embedAsset env.photoOk photoBox)
    let signature := images.signature.bind (embedAsset env.sigOk sigBox)
    if !env.saveOk then .error .saveFailed
    else .ok ⟨overlays, env.flattenOk, photo, signature⟩

/-- The observable data of a `File` object used by `validateImage`: its
MIME type string and its byte size. -/
structure FileInfo where
  type : String
  size : Nat
deriving Repr, DecidableEq

/-- The two validation profiles of `validateImage`. -/
inductive ImgKind where
  | photo
  | signature
deriving Repr, DecidableEq

/-- The constraint profile selected inside `validateImage`. -/
structure Constraints where
  maxSizeMB : Nat
  maxSizeBytes : Nat
  acceptedTypes : List String
  minWidth : Nat
  minHeight : Nat
  maxWidth : Nat
  maxHeight : Nat
  recommendedWidth : Nat
  recommendedHeight : Nat
  aspectRatioMin : ℚ
  aspectRatioMax : ℚ
deriving Repr, DecidableEq

/-- The photo profile of `validateImage`. -/
def photoConstraints : Constraints :=
  ⟨5, 5 * 1024 * 1024, ["image/jpeg", "image/png", "image/jpg"],
    150, 180, 2000, 2400, 300, 360, 6 / 10, 10 / 10⟩

/-- The signature profile of `validateImage`. -/
def signatureConstraints : Constraints :=
  ⟨2, 2 * 1024 * 1024, ["image/jpeg", "image/png", "image/jpg"],
    50, 20, 2000, 1000, 400, 150, 5 / 10, 80 / 10⟩

/-- The error messages pushed by `validateImage`, as tagged values carrying
the data interpolated into the source strings. -/
inductive VErr where
  | invalidType (t : String)
  | tooLarge (size : Nat)
  | tooSmall (w h : Nat)
  | corrupted
deriving Repr, DecidableEq

/-- The warning messages pushed by `validateImage`, as tagged values. -/
inductive VWarn where
  | veryLarge (w h : Nat)
  | unusualAspect (r : ℚ)
deriving Repr, DecidableEq

/-- Embedding of the `ImageValidationResult` interface. -/
structure ImageValidationResult where
  valid : Bool
  errors : List VErr
  warnings : List VWarn
  dimensions : Option (Nat × Nat)
deriving Repr, DecidableEq

/-- The errors accumulated by `validateImage` before the image is decoded:
the MIME-type check and the byte-size check, in source order. -/
def preDecodeErrors (file : FileInfo) (kind : ImgKind) : List VErr :=
  let c := match kind with
    | .photo => photoConstraints
    | .signature => signatureConstraints
  (if c.acceptedTypes.contains file.type then [] else [.invalidType file.type]) ++
    (if c.maxSizeBytes < file.size then [.tooLarge file.size] else [])

/-- Embedding of `validateImage`. The asynchronous decode of the image
element is passed in as `decoded`: `some (width, height)` models the
`onload` branch, `none` the `onerror` branch. -/
def validateImage (file : FileInfo) (kind : ImgKind) (decoded : Option (Nat × Nat)) :
    ImageValidationResult :=
  let c := match kind with
    | .photo => photoConstraints
    | .signature => signatureConstraints
  let errors0 := preDecodeErrors file kind
  match decoded with
  | some (width, height) =>
      let errors1 := errors0 ++
        (if width < c.minWidth ∨ height < c.minHeight then [.tooSmall width height] else [])
      let warnings0 : List VWarn :=
        if c.maxWidth < width ∨ c.maxHeight < height then [.veryLarge width height] else []
      let aspectRatio : ℚ := (width : ℚ) / (height : ℚ)
      let warnings1 := warnings0 ++
        (if aspectRatio < c.aspectRatioMin ∨ c.aspectRatioMax < aspectRatio then
          [.unusualAspect aspectRatio] else [])
      ⟨errors1.isEmpty, errors1, warnings1, some (width, height)⟩
  | none =>
      ⟨false, errors0 ++ [.corrupted], [], none⟩

/-! Concrete fixtures used to instantiate the theorems below, built from
the end-to-end example of the documentation: field `name_bn` mapped to the
template key `text_3zwog` at rectangle `(193, 584, 364, 11)`. -/

/-- Sample `FORM_FIELDS` table. -/
def sampleFields : List FormFieldDef := [⟨"name_bn", "text_3zwog"⟩]

/-- Sample `FIELD_COORDS` lookup. -/
def sampleCoords : String → Option FieldRect := fun k =>
  if k = "text_3zwog" then some ⟨193, 584, 364, 11⟩ else none

/-- Sample photo box. -/
def samplePhotoBox : FieldRect := ⟨450, 640, 90, 108⟩

/-- Sample signature box. -/
def sampleSigBox : FieldRect := ⟨60, 120, 120, 40⟩

/-- Sample form values: only `name_bn` is populated. -/
def sampleVals : String → Option String := fun i =>
  if i = "name_bn" then some "abc" else none

/-- Sample image inputs: a PNG photo and a JPEG signature. -/
def sampleImages : ImageData :=
  ⟨some "data:image/png;base64,AAAA".toList,
    some "data:image/jpeg;base64,AAAA".toList⟩

/-- Environment in which every external step succeeds. -/
def envAllOk : ComposeEnv := ⟨true, true, true, fun _ => true, true, true, true, true⟩

/-- Environment in which the photo embed fails and everything else
succeeds. -/
def envPhotoFail : ComposeEnv := ⟨true, true, true, fun _ => true, true, false, true, true⟩

/-- Environment in which the canvas drawing context is unavailable. -/
def envNoCtx : ComposeEnv := ⟨true, true, false, fun _ => true, true, true, true, true⟩

/-- The document produced by `fillPdfForm` on the sample fixtures with
every step succeeding. -/
def sampleDoc : ComposedDoc :=
  ⟨[("text_3zwog", ⟨.png, 193, 584, 364, 11⟩)], true,
    some ⟨.png, 450, 640, 90, 108⟩, some ⟨.jpg, 60, 120, 120, 40⟩⟩

/-! Theorems. -/

/-- A boolean equal to `false` is not equal to `true`. -/
theorem bool_ne_true_of_eq_false {b : Bool} (h : b = false) : ¬(b = true) := by
  intro hc
  rw [h] at hc
  exact Bool.noConfusion hc

/-- A list with a member is not empty. -/
theorem isEmpty_false_of_mem {α : Type} {a : α} {l : List α} (h : a ∈ l) :
    l.isEmpty = false := by
  cases l with
  | nil => cases h
  | cons x xs => rfl

/-- Claim C6: for every text string and target rectangle, the backing
canvas of the text rasterizer is sized exactly `rect.w * scale` by
`rect.h * scale` for the fixed upscale factor `scale = 4` (which is at
least 3), and the font size constant is `0.85` times the rectangle
height. -/
theorem renderTextToImage_surface_and_font (text : String) (w h : ℚ) :
    renderTextToImage true text w h =
      some ⟨text, w * renderScale, h * renderScale, h * (85 / 100),
        h * (85 / 100) * renderScale⟩ ∧
    (3 : ℚ) ≤ renderScale := by
  refine ⟨rfl, ?_⟩
  norm_num [renderScale]

/-- Claim C3: under the photo profile, a file whose byte size exceeds the
5 MB cap gets a size hard error and an invalid result regardless of its
pixel dimensions, and an image whose decoded dimensions fall below the
150 by 180 minimum gets a too-small hard error and an invalid result. -/
theorem validateImage_photo_hard_errors :
    (∀ (file : FileInfo) (decoded : Option (Nat × Nat)),
        5 * 1024 * 1024 < file.size →
        (validateImage file .photo decoded).valid = false ∧
          VErr.tooLarge file.size ∈ (validateImage file .photo decoded).errors) ∧
    (∀ (file : FileInfo) (w h : Nat), w < 150 ∨ h < 180 →
        (validateImage file .photo (some (w, h))).valid = false ∧
          VErr.tooSmall w h ∈ (validateImage file .photo (some (w, h))).errors) := by
  constructor
  · intro file decoded hsize
    have hmem : VErr.tooLarge file.size ∈ preDecodeErrors file .photo := by
      simp [preDecodeErrors, photoConstraints, hsize]
    cases decoded with
    | none =>
        refine ⟨rfl, ?_⟩
        simp only [validateImage, List.mem_append]
        exact Or.inl hmem
    | some wh =>
        obtain ⟨w, h⟩ := wh
        have hmem2 : VErr.tooLarge file.size ∈ (validateImage file .photo (some (w, h))).errors := by
          simp only [validateImage, List.mem_append]
          exact Or.inl hmem
        exact ⟨isEmpty_false_of_mem hmem2, hmem2⟩
  · intro file w h hsmall
    have hmem : VErr.tooSmall w h ∈ (validateImage file .photo (some (w, h))).errors := by
      simp only [validateImage, List.mem_append]
      right
      simp [photoConstraints, hsmall]
    exact ⟨isEmpty_false_of_mem hmem, hmem⟩

/-- Witness for claim C3: a 6 MB JPEG of 1000 by 1000 pixels is rejected
as too large, and a 100 by 100 pixel image is rejected as too small. -/
theorem validateImage_photo_hard_errors_witness :
    ((validateImage ⟨"image/jpeg", 6 * 1024 * 1024⟩ .photo (some (1000, 1000))).valid = false ∧
      VErr.tooLarge (6 * 1024 * 1024) ∈
        (validateImage ⟨"image/jpeg", 6 * 1024 * 1024⟩ .photo (some (1000, 1000))).errors) ∧
    ((validateImage ⟨"image/jpeg", 1000⟩ .photo (some (100, 100))).valid = false ∧
      VErr.tooSmall 100 100 ∈
        (validateImage ⟨"image/jpeg", 1000⟩ .photo (some (100, 100))).errors) :=
  ⟨validateImage_photo_hard_errors.1 ⟨"image/jpeg", 6 * 1024 * 1024⟩
      (some (1000, 1000)) (by norm_num),
    validateImage_photo_hard_errors.2 ⟨"image/jpeg", 1000⟩ 100 100 (by norm_num)⟩

/-- Claim C4: soft warnings never invalidate a validation result: `valid`
equals the emptiness of the error list alone, and an aspect ratio outside
the photo range `[0.6, 1.0]` only adds a warning. -/
theorem validateImage_warnings_never_invalidate (file : FileInfo) (w h : Nat) :
    ((validateImage file .photo (some (w, h))).valid =
      (validateImage file .photo (some (w, h))).errors.isEmpty) ∧
    ((w : ℚ) / (h : ℚ) < 6 / 10 ∨ 1 < (w : ℚ) / (h : ℚ) →
      VWarn.unusualAspect ((w : ℚ) / (h : ℚ)) ∈
        (validateImage file .photo (some (w, h))).warnings) := by
  constructor
  · rfl
  · intro haspect
    simp only [validateImage, List.mem_append]
    right
    simp [photoConstraints, haspect]

/-- Witness for claim C4: a 540 by 180 JPEG photo has aspect ratio 3,
which is flagged as a warning while the result stays valid. -/
theorem validateImage_warnings_never_invalidate_witness :
    VWarn.unusualAspect ((540 : ℚ) / (180 : ℚ)) ∈
      (validateImage ⟨"image/jpeg", 1000⟩ .photo (some (540, 180))).warnings ∧
    (validateImage ⟨"image/jpeg", 1000⟩ .photo (some (540, 180))).valid = true :=
  ⟨(validateImage_warnings_never_invalidate ⟨"image/jpeg", 1000⟩ 540 180).2
      (by norm_num),
    by decide⟩

/-- Claim C9: every resolved validation result satisfies the invariant
that `valid` holds exactly when the error list is empty and that
dimensions are reported exactly when the image decoded; on decode failure
the result keeps the pre-decode type and size errors, appends the
corruption error, and omits dimensions. -/
theorem validateImage_result_invariant (file : FileInfo) (kind : ImgKind)
    (decoded : Option (Nat × Nat)) :
    ((validateImage file kind decoded).valid = true ↔
      (validateImage file kind decoded).errors = []) ∧
    ((validateImage file kind decoded).dimensions.isSome = decoded.isSome) ∧
    (decoded = none →
      (validateImage file kind decoded).errors =
        preDecodeErrors file kind ++ [VErr.corrupted] ∧
      (validateImage file kind decoded).dimensions = none) := by
  cases decoded with
  | none =>
      refine ⟨?_, rfl, fun _ => ⟨rfl, rfl⟩⟩
      simp only [validateImage]
      constructor
      · intro hfalse
        cases hfalse
      · intro hnil
        exact absurd hnil (by simp)
  | some wh =>
      obtain ⟨w, h⟩ := wh
      refine ⟨?_, rfl, fun hcontra => by cases hcontra⟩
      simp only [validateImage]
      exact List.isEmpty_iff

/-- Witness for claim C9: an undecodable text file under the photo profile
keeps its type error, gains the corruption error, and reports no
dimensions. -/
theorem validateImage_result_invariant_witness :
    ((validateImage ⟨"text/plain", 10⟩ .photo none).valid = true ↔
      (validateImage ⟨"text/plain", 10⟩ .photo none).errors = []) ∧
    ((validateImage ⟨"text/plain", 10⟩ .photo none).dimensions.isSome =
      (none : Option (Nat × Nat)).isSome) ∧
    ((none : Option (Nat × Nat)) = none →
      (validateImage ⟨"text/plain", 10⟩ .photo none).errors =
        preDecodeErrors ⟨"text/plain", 10⟩ .photo ++ [VErr.corrupted] ∧
      (validateImage ⟨"text/plain", 10⟩ .photo none).dimensions = none) :=
  validateImage_result_invariant ⟨"text/plain", 10⟩ .photo none

/-- Running `fillPdfForm` when fetch, load and save succeed yields the
composed document directly. -/
theorem fillPdfForm_ok (env : ComposeEnv) (ff : List FormFieldDef)
    (fc : String → Option FieldRect) (pb sb : FieldRect)
    (fv : String → Option String) (im : ImageData)
    (hF : env.fetchOk = true) (hL : env.loadOk = true) (hS : env.saveOk = true) :
    fillPdfForm env ff fc pb sb fv im =
      .ok ⟨(buildPdfFieldData ff fv).filterMap (drawTextOverlay env fc),
        env.flattenOk, im.photo.bind (embedAsset env.photoOk pb),
        im.signature.bind (embedAsset env.sigOk sb)⟩ := by
  simp [fillPdfForm, hF, hL, hS]

/-- A successful `fillPdfForm` run implies fetch, load and save all
succeeded. -/
theorem flags_of_ok {env : ComposeEnv} {ff : List FormFieldDef}
    {fc : String → Option FieldRect} {pb sb : FieldRect}
    {fv : String → Option String} {im : ImageData} {doc : ComposedDoc}
    (hdoc : fillPdfForm env ff fc pb sb fv im = .ok doc) :
    env.fetchOk = true ∧ env.loadOk = true ∧ env.saveOk = true := by
  cases hF : env.fetchOk with
  | false => simp [fillPdfForm, hF] at hdoc
  | true =>
      cases hL : env.loadOk with
      | false => simp [fillPdfForm, hF, hL] at hdoc
      | true =>
          cases hS : env.saveOk with
          | false => simp [fillPdfForm, hF, hL, hS] at hdoc
          | true => exact ⟨rfl, rfl, rfl⟩

/-- An overlay is only produced for an entry whose embed step succeeded. -/
theorem textEmbedOk_of_drawTextOverlay {env : ComposeEnv}
    {fc : String → Option FieldRect} {e : String × String}
    {nd : String × DrawnImage} (h : drawTextOverlay env fc e = some nd) :
    env.textEmbedOk nd.1 = true := by
  unfold drawTextOverlay at h
  split at h
  · exact absurd h (by simp)
  · split at h
    · exact absurd h (by simp)
    · split at h
      · rename_i hok
        cases h
        exact hok
      · exact absurd h (by simp)

/-- Claim C1: per-field and per-image failures inside `fillPdfForm` never
propagate: the call returns a document exactly when fetch, load and save
succeed, and in a returned document every failed item is simply absent
(no overlay for a field whose embed failed, no photo or signature when the
respective embed failed). -/
theorem fillPdfForm_error_policy (env : ComposeEnv) (ff : List FormFieldDef)
    (fc : String → Option FieldRect) (pb sb : FieldRect)
    (fv : String → Option String) (im : ImageData) :
    ((∃ doc, fillPdfForm env ff fc pb sb fv im = .ok doc) ↔
      (env.fetchOk = true ∧ env.loadOk = true ∧ env.saveOk = true)) ∧
    (∀ doc, fillPdfForm env ff fc pb sb fv im = .ok doc →
      (∀ n d, (n, d) ∈ doc.textOverlays → env.textEmbedOk n = true) ∧
      (env.photoOk = false → doc.photo = none) ∧
      (env.sigOk = false → doc.signature = none)) := by
  constructor
  · constructor
    · rintro ⟨doc, hdoc⟩
      exact flags_of_ok hdoc
    · rintro ⟨hF, hL, hS⟩
      exact ⟨_, fillPdfForm_ok env ff fc pb sb fv im hF hL hS⟩
  · intro doc hdoc
    obtain ⟨hF, hL, hS⟩ := flags_of_ok hdoc
    rw [fillPdfForm_ok env ff fc pb sb fv im hF hL hS] at hdoc
    injection hdoc with hdoc
    subst hdoc
    refine ⟨?_, ?_, ?_⟩
    · intro n d hmem
      simp only [List.mem_filterMap] at hmem
      obtain ⟨e, _, hdraw⟩ := hmem
      exact textEmbedOk_of_drawTextOverlay hdraw
    · intro hpf
      cases him : im.photo <;> simp [him, embedAsset, hpf]
    · intro hsf
      cases him : im.signature <;> simp [him, embedAsset, hsf]

/-- Witness for claim C1, on the sample fixtures with a failing photo
embed. -/
theorem fillPdfForm_error_policy_witness :
    ((∃ doc, fillPdfForm envPhotoFail sampleFields sampleCoords samplePhotoBox
        sampleSigBox sampleVals sampleImages = .ok doc) ↔
      (envPhotoFail.fetchOk = true ∧ envPhotoFail.loadOk = true ∧
        envPhotoFail.saveOk = true)) ∧
    (∀ doc, fillPdfForm envPhotoFail sampleFields sampleCoords samplePhotoBox
        sampleSigBox sampleVals sampleImages = .ok doc →
      (∀ n d, (n, d) ∈ doc.textOverlays → envPhotoFail.textEmbedOk n = true) ∧
      (envPhotoFail.photoOk = false → doc.photo = none) ∧
      (envPhotoFail.sigOk = false → doc.signature = none)) :=
  fillPdfForm_error_policy envPhotoFail sampleFields sampleCoords samplePhotoBox
    sampleSigBox sampleVals sampleImages

/-- Claim C7: when the canvas drawing context is unavailable the
rasterizer returns the explicit empty result instead of failing, and the
composer then draws no text overlay at all while the rest of the call
(flatten, photo, signature, save) proceeds normally. -/
theorem renderUnavailable_skips_fields (env : ComposeEnv) (ff : List FormFieldDef)
    (fc : String → Option FieldRect) (pb sb : FieldRect)
    (fv : String → Option String) (im : ImageData) (text : String) (w h : ℚ)
    (hctx : env.ctxOk = false) (hF : env.fetchOk = true) (hL : env.loadOk = true)
    (hS : env.saveOk = true) :
    renderTextToImage env.ctxOk text w h = none ∧
    fillPdfForm env ff fc pb sb fv im =
      .ok ⟨[], env.flattenOk, im.photo.bind (embedAsset env.photoOk pb),
        im.signature.bind (embedAsset env.sigOk sb)⟩ := by
  have hrender : ∀ (t : String) (a b : ℚ), renderTextToImage env.ctxOk t a b = none := by
    intro t a b
    simp [renderTextToImage, hctx]
  refine ⟨hrender text w h, ?_⟩
  rw [fillPdfForm_ok env ff fc pb sb fv im hF hL hS]
  have hnil : (buildPdfFieldData ff fv).filterMap (drawTextOverlay env fc) = [] := by
    simp only [List.filterMap_eq_nil_iff]
    intro e _
    unfold drawTextOverlay
    cases hfc : fc e.1 with
    | none => simp
    | some c => simp [hrender]
  rw [hnil]

/-- Witness for claim C7, on the sample fixtures with an unavailable
context. -/
theorem renderUnavailable_skips_fields_witness :
    renderTextToImage envNoCtx.ctxOk "abc" 364 11 = none ∧
    fillPdfForm envNoCtx sampleFields sampleCoords samplePhotoBox sampleSigBox
        sampleVals sampleImages =
      .ok ⟨[], envNoCtx.flattenOk,
        sampleImages.photo.bind (embedAsset envNoCtx.photoOk samplePhotoBox),
        sampleImages.signature.bind (embedAsset envNoCtx.sigOk sampleSigBox)⟩ :=
  renderUnavailable_skips_fields envNoCtx sampleFields sampleCoords samplePhotoBox
    sampleSigBox sampleVals sampleImages "abc" 364 11 rfl rfl rfl rfl

/-- Claim C5: each supplied asset is embedded by the path selected from
its MIME kind: a data URL declaring `image/png` goes through the PNG path
and any other data URL through the JPEG path, and the drawn asset records
exactly that path. -/
theorem fillPdfForm_embed_path (env : ComposeEnv) (ff : List FormFieldDef)
    (fc : String → Option FieldRect) (pb sb : FieldRect)
    (fv : String → Option String) (purl surl : List Char) (doc : ComposedDoc)
    (hp : env.photoOk = true) (hsig : env.sigOk = true)
    (hdoc : fillPdfForm env ff fc pb sb fv ⟨some purl, some surl⟩ = .ok doc) :
    doc.photo = some ⟨getImageType purl, pb.x, pb.y, pb.w, pb.h⟩ ∧
    doc.signature = some ⟨getImageType surl, sb.x, sb.y, sb.w, sb.h⟩ ∧
    (hasSub "image/png".toList purl = true → getImageType purl = .png) ∧
    (hasSub "image/png".toList purl = false → getImageType purl = .jpg) ∧
    (hasSub "image/png".toList surl = true → getImageType surl = .png) ∧
    (hasSub "image/png".toList surl = false → getImageType surl = .jpg) := by
  obtain ⟨hF, hL, hS⟩ := flags_of_ok hdoc
  rw [fillPdfForm_ok env ff fc pb sb fv ⟨some purl, some surl⟩ hF hL hS] at hdoc
  injection hdoc with hdoc
  subst hdoc
  refine ⟨?_, ?_, ?_, ?_, ?_, ?_⟩
  · simp [embedAsset, hp]
  · simp [embedAsset, hsig]
  · intro hpng
    unfold getImageType
    rw [if_pos hpng]
  · intro hnot
    unfold getImageType
    rw [if_neg (bool_ne_true_of_eq_false hnot)]
  · intro hpng
    unfold getImageType
    rw [if_pos hpng]
  · intro hnot
    unfold getImageType
    rw [if_neg (bool_ne_true_of_eq_false hnot)]

/-- Witness for claim C5: a PNG photo and a JPEG signature on the sample
fixtures take the PNG and JPEG paths respectively. -/
theorem fillPdfForm_embed_path_witness :
    sampleDoc.photo = some ⟨getImageType "data:image/png;base64,AAAA".toList,
      samplePhotoBox.x, samplePhotoBox.y, samplePhotoBox.w, samplePhotoBox.h⟩ ∧
    sampleDoc.signature = some ⟨getImageType "data:image/jpeg;base64,AAAA".toList,
      sampleSigBox.x, sampleSigBox.y, sampleSigBox.w, sampleSigBox.h⟩ ∧
    (hasSub "image/png".toList "data:image/png;base64,AAAA".toList = true →
      getImageType "data:image/png;base64,AAAA".toList = .png) ∧
    (hasSub "image/png".toList "data:image/png;base64,AAAA".toList = false →
      getImageType "data:image/png;base64,AAAA".toList = .jpg) ∧
    (hasSub "image/png".toList "data:image/jpeg;base64,AAAA".toList = true →
      getImageType "data:image/jpeg;base64,AAAA".toList = .png) ∧
    (hasSub "image/png".toList "data:image/jpeg;base64,AAAA".toList = false →
      getImageType "data:image/jpeg;base64,AAAA".toList = .jpg) :=
  fillPdfForm_embed_path envAllOk sampleFields sampleCoords samplePhotoBox
    sampleSigBox sampleVals "data:image/png;base64,AAAA".toList
    "data:image/jpeg;base64,AAAA".toList sampleDoc rfl rfl rfl

/-- Assigning a fresh key to a record appends the pair. -/
theorem recordSet_of_not_mem (r : List (String × String)) (k v : String)
    (h : ∀ p ∈ r, p.1 ≠ k) : recordSet r k v = r ++ [(k, v)] := by
  unfold recordSet
  rw [if_neg]
  simp only [List.any_eq_true, decide_eq_true_eq, not_exists]
  intro p hp
  exact h p hp.1 hp.2

/-- Membership in the `pdfFieldData` fold, generalised over the
accumulator: under distinct PDF field keys, an entry is either already in
the accumulator or contributed by a populated field. -/
theorem mem_buildPdfFieldData_aux (fv : String → Option String)
    (ff : List FormFieldDef) :
    ∀ (acc : List (String × String)),
      (ff.map (fun f => f.pdfFieldId)).Nodup →
      (∀ p ∈ acc, p.1 ∉ ff.map (fun f => f.pdfFieldId)) →
      ∀ k v,
        ((k, v) ∈ ff.foldl (fun acc f =>
            match fv f.id with
            | some v => if v ≠ "" then recordSet acc f.pdfFieldId v else acc
            | none => acc) acc ↔
          ((k, v) ∈ acc ∨ ∃ f ∈ ff, f.pdfFieldId = k ∧ fv f.id = some v ∧ v ≠ "")) := by
  induction ff with
  | nil =>
      intro acc _ _ k v
      simp
  | cons f rest ih =>
      intro acc hnodup hacc k v
      simp only [List.map_cons, List.nodup_cons] at hnodup
      obtain ⟨hfid, hnodup2⟩ := hnodup
      simp only [List.foldl_cons]
      cases hfv : fv f.id with
      | none =>
          rw [ih acc hnodup2 (fun p hp => fun hm => hacc p hp (by simp [hm]))]
          constructor
          · rintro (h1 | ⟨f2, hf2, h2⟩)
            · exact Or.inl h1
            · exact Or.inr ⟨f2, List.mem_cons_of_mem f hf2, h2⟩
          · rintro (h1 | ⟨f2, hf2, hid, hval, hne⟩)
            · exact Or.inl h1
            · rcases List.mem_cons.mp hf2 with rfl | hf2r
              · rw [hfv] at hval
                exact Option.noConfusion hval
              · exact Or.inr ⟨f2, hf2r, hid, hval, hne⟩
      | some w =>
          by_cases hw : w = ""
          · simp only [hw, ne_eq, not_true_eq_false, if_false]
            rw [ih acc hnodup2 (fun p hp => fun hm => hacc p hp (by simp [hm]))]
            constructor
            · rintro (h1 | ⟨f2, hf2, h2⟩)
              · exact Or.inl h1
              · exact Or.inr ⟨f2, List.mem_cons_of_mem f hf2, h2⟩
            · rintro (h1 | ⟨f2, hf2, hid, hval, hne⟩)
              · exact Or.inl h1
              · rcases List.mem_cons.mp hf2 with rfl | hf2r
                · rw [hfv] at hval
                  injection hval with hval
                  exact absurd (hval.symm.trans hw) hne
                · exact Or.inr ⟨f2, hf2r, hid, hval, hne⟩
          · simp only [hw, ne_eq, not_false_eq_true, if_true]
            have hset : recordSet acc f.pdfFieldId w = acc ++ [(f.pdfFieldId, w)] :=
              recordSet_of_not_mem acc f.pdfFieldId w
                (fun p hp => fun hc => hacc p hp (by simp [hc]))
            rw [hset, ih (acc ++ [(f.pdfFieldId, w)]) hnodup2 ?hacc2]
            case hacc2 =>
              intro p hp
              rcases List.mem_append.mp hp with hpl | hpr
              · exact fun hm => hacc p hpl (by simp [hm])
              · simp only [List.mem_singleton] at hpr
                rw [hpr]
                exact hfid
            constructor
            · rintro (h1 | ⟨f2, hf2, h2⟩)
              · rcases List.mem_append.mp h1 with hl | hr
                · exact Or.inl hl
                · simp only [List.mem_singleton, Prod.mk.injEq] at hr
                  exact Or.inr ⟨f, List.mem_cons_self f rest,
                    hr.1.symm, by rw [hfv, hr.2], by rw [hr.2]; exact hw⟩
              · exact Or.inr ⟨f2, List.mem_cons_of_mem f hf2, h2⟩
            · rintro (h1 | ⟨f2, hf2, hid, hval, hne⟩)
              · exact Or.inl (List.mem_append.mpr (Or.inl h1))
              · rcases List.mem_cons.mp hf2 with rfl | hf2r
                · rw [hfv] at hval
                  injection hval with hval
                  refine Or.inl (List.mem_append.mpr (Or.inr ?_))
                  simp [hid.symm, hval.symm]
                · exact Or.inr ⟨f2, hf2r, hid, hval, hne⟩

/-- Membership in `pdfFieldData` under distinct PDF field keys. -/
theorem mem_buildPdfFieldData (ff : List FormFieldDef) (fv : String → Option String)
    (hnodup : (ff.map (fun f => f.pdfFieldId)).Nodup) (k v : String) :
    ((k, v) ∈ buildPdfFieldData ff fv ↔
      ∃ f ∈ ff, f.pdfFieldId = k ∧ fv f.id = some v ∧ v ≠ "") := by
  have h := mem_buildPdfFieldData_aux fv ff [] hnodup (by simp) k v
  simpa [buildPdfFieldData] using h

/-- In a fully working environment `drawTextOverlay` draws exactly when
the coordinate lookup succeeds. -/
theorem drawTextOverlay_ok {env : ComposeEnv} (hctx : env.ctxOk = true)
    (hembed : ∀ n, env.textEmbedOk n = true) (fc : String → Option FieldRect)
    (e : String × String) :
    drawTextOverlay env fc e =
      (fc e.1).map (fun c => (e.1, ⟨.png, c.x, c.y, c.w, c.h⟩)) := by
  unfold drawTextOverlay
  cases hfc : fc e.1 with
  | none => simp
  | some c => simp [renderTextToImage, hctx, hembed]

/-- Claim C2: in a fully working run, a text overlay for a form field is
drawn at the coordinates of its PDF field key exactly when the field has a
defined non-empty value and the coordinate table has an entry for the key;
a missing coordinate entry silently omits the overlay while the call still
returns a document. -/
theorem fillPdfForm_overlay_iff (env : ComposeEnv) (ff : List FormFieldDef)
    (fc : String → Option FieldRect) (pb sb : FieldRect)
    (fv : String → Option String) (im : ImageData) (f : FormFieldDef)
    (doc : ComposedDoc)
    (hnodup : (ff.map (fun g => g.pdfFieldId)).Nodup)
    (hctx : env.ctxOk = true) (hembed : ∀ n, env.textEmbedOk n = true)
    (hf : f ∈ ff)
    (hdoc : fillPdfForm env ff fc pb sb fv im = .ok doc) :
    (fc f.pdfFieldId = none → ∀ d, (f.pdfFieldId, d) ∉ doc.textOverlays) ∧
    (∀ c, fc f.pdfFieldId = some c →
      ((f.pdfFieldId, ⟨EmbedKind.png, c.x, c.y, c.w, c.h⟩) ∈ doc.textOverlays ↔
        ∃ v, fv f.id = some v ∧ v ≠ "")) := by
  obtain ⟨hF, hL, hS⟩ := flags_of_ok hdoc
  rw [fillPdfForm_ok env ff fc pb sb fv im hF hL hS] at hdoc
  injection hdoc with hdoc
  subst hdoc
  constructor
  · intro hnone d hmem
    simp only [List.mem_filterMap] at hmem
    obtain ⟨e, _, hdraw⟩ := hmem
    rw [drawTextOverlay_ok hctx hembed] at hdraw
    cases hfc : fc e.1 with
    | none =>
        rw [hfc] at hdraw
        exact Option.noConfusion hdraw
    | some c =>
        rw [hfc] at hdraw
        simp only [Option.map_some', Option.some.injEq, Prod.mk.injEq] at hdraw
        rw [hdraw.1, hnone] at hfc
        exact Option.noConfusion hfc
  · intro c hc
    constructor
    · intro hmem
      simp only [List.mem_filterMap] at hmem
      obtain ⟨e, he, hdraw⟩ := hmem
      rw [drawTextOverlay_ok hctx hembed] at hdraw
      cases hfc : fc e.1 with
      | none =>
          rw [hfc] at hdraw
          exact Option.noConfusion hdraw
      | some c2 =>
          rw [hfc] at hdraw
          simp only [Option.map_some', Option.some.injEq, Prod.mk.injEq] at hdraw
          have hme : (f.pdfFieldId, e.2) ∈ buildPdfFieldData ff fv := by
            rw [← hdraw.1]
            simpa using he
          rw [mem_buildPdfFieldData ff fv hnodup] at hme
          obtain ⟨f2, hf2mem, hf2id, hval, hne⟩ := hme
          have heq : f2 = f :=
            List.inj_on_of_nodup_map hnodup hf2mem hf (by rw [hf2id])
          exact ⟨e.2, by rw [← heq]; exact hval, hne⟩
    · rintro ⟨v, hval, hvne⟩
      have hmem : (f.pdfFieldId, v) ∈ buildPdfFieldData ff fv :=
        (mem_buildPdfFieldData ff fv hnodup _ _).mpr ⟨f, hf, rfl, hval, hvne⟩
      simp only [List.mem_filterMap]
      refine ⟨(f.pdfFieldId, v), hmem, ?_⟩
      rw [drawTextOverlay_ok hctx hembed]
      simp [hc]

/-- Witness for claim C2, on the sample fixtures: the populated `name_bn`
field yields exactly the overlay at the `text_3zwog` rectangle. -/
theorem fillPdfForm_overlay_iff_witness :
    (sampleCoords "text_3zwog" = none → ∀ d, ("text_3zwog", d) ∉ sampleDoc.textOverlays) ∧
    (∀ c, sampleCoords "text_3zwog" = some c →
      (("text_3zwog", ⟨EmbedKind.png, c.x, c.y, c.w, c.h⟩) ∈ sampleDoc.textOverlays ↔
        ∃ v, sampleVals "name_bn" = some v ∧ v ≠ "")) :=
  fillPdfForm_overlay_iff envAllOk sampleFields sampleCoords samplePhotoBox
    sampleSigBox sampleVals sampleImages ⟨"name_bn", "text_3zwog"⟩ sampleDoc
    (by simp [sampleFields]) rfl (fun _ => rfl) (by simp [sampleFields]) rfl


/-- Decoding inverts encoding on every 6-bit value. -/
theorem b64Index_b64Char : ∀ n < 64, b64Index (b64Char n) = some n := by decide

/-- No alphabet character is the padding character or the comma. -/
theorem mem_b64Alphabet_props : ∀ c ∈ b64Alphabet, c ≠ '=' ∧ c ≠ ',' := by decide

/-- Every encoded character lies in the alphabet. -/
theorem b64Char_mem (n : Nat) : b64Char n ∈ b64Alphabet := by
  unfold b64Char
  rcases Nat.lt_or_ge n b64Alphabet.length with h | h
  · rw [List.getD_eq_getElem?_getD, List.getElem?_eq_getElem h]
    exact List.getElem_mem h
  · rw [List.getD_eq_getElem?_getD, List.getElem?_eq_none h]
    decide


/-- An encoded character is never the padding character. -/
theorem b64Char_ne_pad (n : Nat) : b64Char n ≠ '=' :=
  (mem_b64Alphabet_props _ (b64Char_mem n)).1

/-- An encoded character is never a comma. -/
theorem b64Char_ne_comma (n : Nat) : b64Char n ≠ ',' :=
  (mem_b64Alphabet_props _ (b64Char_mem n)).2

/-- Base64 decoding inverts base64 encoding on byte lists. -/
theorem base64_roundtrip : ∀ (b : List Nat), (∀ x ∈ b, x < 256) →
    base64Decode (base64Encode b) = some b
  | [], _ => rfl
  | [a], hb => by
      have ha : a < 256 := hb a (by simp)
      have h0 : b64Index (b64Char (a / 4)) = some (a / 4) :=
        b64Index_b64Char _ (by omega)
      have h1 : b64Index (b64Char (a % 4 * 16)) = some (a % 4 * 16) :=
        b64Index_b64Char _ (by omega)
      simp [base64Encode, base64Decode, h0, h1]
      omega
  | [a, b], hb => by
      have ha : a < 256 := hb a (by simp)
      have hbb : b < 256 := hb b (by simp)
      have h0 : b64Index (b64Char (a / 4)) = some (a / 4) :=
        b64Index_b64Char _ (by omega)
      have h1 : b64Index (b64Char (a % 4 * 16 + b / 16)) = some (a % 4 * 16 + b / 16) :=
        b64Index_b64Char _ (by omega)
      have h2 : b64Index (b64Char (b % 16 * 4)) = some (b % 16 * 4) :=
        b64Index_b64Char _ (by omega)
      simp [base64Encode, base64Decode, h0, h1, h2, b64Char_ne_pad]
      omega
  | a :: b :: c :: d :: rest, hb => by
      have ha : a < 256 := hb a (by simp)
      have hbb : b < 256 := hb b (by simp)
      have hc : c < 256 := hb c (by simp)
      have ih := base64_roundtrip (d :: rest) (fun x hx => hb x (by simp [hx]))
      have h0 : b64Index (b64Char (a / 4)) = some (a / 4) :=
        b64Index_b64Char _ (by omega)
      have h1 : b64Index (b64Char (a % 4 * 16 + b / 16)) = some (a % 4 * 16 + b / 16) :=
        b64Index_b64Char _ (by omega)
      have h2 : b64Index (b64Char (b % 16 * 4 + c / 64)) = some (b % 16 * 4 + c / 64) :=
        b64Index_b64Char _ (by omega)
      have h3 : b64Index (b64Char (c % 64)) = some (c % 64) :=
        b64Index_b64Char _ (by omega)
      simp [base64Encode, base64Decode, h0, h1, h2, h3, ih, b64Char_ne_pad]
      omega
  | [a, b, c], hb => by
      have ha : a < 256 := hb a (by simp)
      have hbb : b < 256 := hb b (by simp)
      have hc : c < 256 := hb c (by simp)
      have h0 : b64Index (b64Char (a / 4)) = some (a / 4) :=
        b64Index_b64Char _ (by omega)
      have h1 : b64Index (b64Char (a % 4 * 16 + b / 16)) = some (a % 4 * 16 + b / 16) :=
        b64Index_b64Char _ (by omega)
      have h2 : b64Index (b64Char (b % 16 * 4 + c / 64)) = some (b % 16 * 4 + c / 64) :=
        b64Index_b64Char _ (by omega)
      have h3 : b64Index (b64Char (c % 64)) = some (c % 64) :=
        b64Index_b64Char _ (by omega)
      simp [base64Encode, base64Decode, h0, h1, h2, h3, b64Char_ne_pad]
      omega

/-- A base64 encoding never contains a comma. -/
theorem comma_not_mem_base64Encode : ∀ (b : List Nat), ',' ∉ base64Encode b
  | [] => by simp [base64Encode]
  | [a] => by
      intro hmem
      simp only [base64Encode, List.mem_cons, List.not_mem_nil, or_false] at hmem
      rcases hmem with h | h | h | h
      · exact b64Char_ne_comma _ h.symm
      · exact b64Char_ne_comma _ h.symm
      · exact absurd h (by decide)
      · exact absurd h (by decide)
  | [a, b] => by
      intro hmem
      simp only [base64Encode, List.mem_cons, List.not_mem_nil, or_false] at hmem
      rcases hmem with h | h | h | h
      · exact b64Char_ne_comma _ h.symm
      · exact b64Char_ne_comma _ h.symm
      · exact b64Char_ne_comma _ h.symm
      · exact absurd h (by decide)
  | a :: b :: c :: d :: rest => by
      intro hmem
      simp only [base64Encode, List.mem_cons] at hmem
      rcases hmem with h | h | h | h | h
      · exact b64Char_ne_comma _ h.symm
      · exact b64Char_ne_comma _ h.symm
      · exact b64Char_ne_comma _ h.symm
      · exact b64Char_ne_comma _ h.symm
      · exact comma_not_mem_base64Encode (d :: rest) h
  | [a, b, c] => by
      intro hmem
      simp only [base64Encode, List.mem_cons, List.not_mem_nil, or_false] at hmem
      rcases hmem with h | h | h | h
      · exact b64Char_ne_comma _ h.symm
      · exact b64Char_ne_comma _ h.symm
      · exact b64Char_ne_comma _ h.symm
      · exact b64Char_ne_comma _ h.symm

/-- Splitting a list without the separator yields the list itself. -/
theorem splitOnChar_not_mem (sep : Char) (s : List Char) (h : sep ∉ s) :
    splitOnChar sep s = [s] := by
  induction s with
  | nil => rfl
  | cons c cs ih =>
      have hne : ¬(c = sep) := fun hc => h (by rw [hc]; exact List.mem_cons_self _ _)
      unfold splitOnChar
      rw [if_neg hne, ih (fun hm => h (List.mem_cons_of_mem _ hm))]

/-- Splitting a comma-free header and comma-free payload around a comma
yields exactly the two parts. -/
theorem splitOnChar_pair (header payload : List Char)
    (hh : ',' ∉ header) (hp : ',' ∉ payload) :
    splitOnChar ',' (header ++ ',' :: payload) = [header, payload] := by
  induction header with
  | nil =>
      simp only [List.nil_append]
      unfold splitOnChar
      rw [if_pos rfl, splitOnChar_not_mem ',' payload hp]
  | cons c cs ih =>
      have hne : ¬(c = ',') := fun hc => hh (by rw [hc]; exact List.mem_cons_self _ _)
      simp only [List.cons_append]
      unfold splitOnChar
      rw [if_neg hne, ih (fun hm => hh (List.mem_cons_of_mem _ hm))]

/-- Claim C8: for every byte list, building a base64 data URL from it
(any comma-free header, a comma, then the base64 encoding) and applying
`dataUrlToUint8Array` returns exactly the original bytes. -/
theorem dataUrl_decode_roundtrip (header : List Char) (b : List Nat)
    (hh : ',' ∉ header) (hb : ∀ x ∈ b, x < 256) :
    dataUrlToUint8Array (header ++ ',' :: base64Encode b) = some b := by
  unfold dataUrlToUint8Array
  rw [splitOnChar_pair header (base64Encode b) hh (comma_not_mem_base64Encode b)]
  exact base64_roundtrip b hb

/-- Witness for claim C8: the four PNG magic bytes survive the data URL
round trip. -/
theorem dataUrl_decode_roundtrip_witness :
    dataUrlToUint8Array ("data:image/png;base64".toList ++ ',' ::
      base64Encode [137, 80, 78, 71]) = some [137, 80, 78, 71] :=
  dataUrl_decode_roundtrip "data:image/png;base64".toList [137, 80, 78, 71]
    (by decide) (by decide)

end HkdForm
